/-
Verification of the `core` event-bus crate (events, queues, routes, bus,
builder, worker-input multiplexer, generic worker run-loop).

Shallow embedding conventions:
- `Uuid` is modelled as `Nat`; `tokio::time::Instant` / `SystemTime` fields are
  omitted (never inspected by the code under verification).
- `AtomicU64` counters are `Nat` with arithmetic taken `% 2^64` where the code's
  `fetch_add` can wrap.
- `HashMap<&'static str, _>` tables are association lists keyed by `String`
  (the builder inserts each key once, preserving insertion order per key).
- Rust's `s.trim().is_empty()` is modelled as "all characters are whitespace"
  over the string's character data (`trim_is_empty`).
- `panic!` / `unimplemented!` / `todo!` outcomes are explicit constructors or
  `Except.error` values so they can be distinguished from `Result::Err`.
-/
import Mathlib

namespace Bratishka

/-- `core/src/events/event.rs`: the routing-relevant part of `trait Event`
(identity, lineage, type tag).  Payload and timestamps are irrelevant to the
claims and omitted. -/
structure Ev where
  event_id : Nat
  parent_ids : List Nat
  event_type : String
deriving DecidableEq

/-- `core/src/events/event.rs`: `EnrichedEvent` — event plus bus-assigned
metadata (`ingested_at : Instant` omitted, never read by the embedded code). -/
structure EnrichedEvent where
  event : Ev
  ingest_ns : Nat
  session_id : Nat
deriving DecidableEq

/-- `core/src/queues/latest1_queue.rs`: `Latest1Queue` — a single overwriting
slot. -/
structure Latest1Queue (α : Type) where
  slot : Option α
deriving DecidableEq

/-- `Latest1Queue::set`: unconditionally overwrite the slot. -/
def Latest1Queue.set {α : Type} (_q : Latest1Queue α) (value : α) : Latest1Queue α :=
  { slot := some value }

/-- `Latest1Queue::try_recv`: `take()` the slot. -/
def Latest1Queue.try_recv {α : Type} (q : Latest1Queue α) : Option α × Latest1Queue α :=
  (q.slot, { slot := none })

/-- `core/src/queues/fifo_drop_oldest_queue.rs`: ring buffer of fixed
capacity; `buf` front is the oldest element. -/
structure FifoDropOldestQueue (α : Type) where
  buf : List α
  capacity : Nat
deriving DecidableEq

/-- `FifoDropOldestQueue::push_overwrite`: if the buffer is at (or above)
capacity, pop the front, then push the new value at the back. -/
def FifoDropOldestQueue.push_overwrite {α : Type} (q : FifoDropOldestQueue α) (value : α) :
    FifoDropOldestQueue α :=
  let buf := if q.capacity ≤ q.buf.length then q.buf.tail else q.buf
  { q with buf := buf ++ [value] }

/-- `FifoDropOldestReceiver::try_recv`: pop from the front. -/
def FifoDropOldestQueue.try_recv {α : Type} (q : FifoDropOldestQueue α) :
    Option α × FifoDropOldestQueue α :=
  match q.buf with
  | [] => (none, q)
  | x :: rest => (some x, { q with buf := rest })

/-- Fresh queue as allocated by the builder (`FifoDropOldestQueue::new`). -/
def FifoDropOldestQueue.mk_empty (α : Type) (capacity : Nat) : FifoDropOldestQueue α :=
  { buf := [], capacity := capacity }

/-- `core/src/queues/isolated_forwarder.rs`: the internal inbox is an
`mpsc::channel::<T>(16)` — capacity hard-coded to 16. -/
def isolated_inbox_capacity : Nat := 16

/-- `IsolatedForwarder`: publisher-facing side, holding the bounded internal
inbox (the drain task and output channel are modelled separately where
needed).  `closed` models the `mpsc` channel having been closed: the drain
task owns the only `inbox_rx`, and when it exits (its `out_tx.send` fails
because the subscriber dropped the output receiver, or all senders are gone)
the receiver is dropped and the channel closes. -/
structure IsolatedForwarder (α : Type) where
  inbox : List α
  closed : Bool
deriving DecidableEq

/-- `IsolatedForwarder::try_send`, i.e. `mpsc::Sender::try_send` on the
16-slot internal inbox: fails (returns the value back, modelled as `false`)
with `TrySendError::Closed` if the channel is closed, or with
`TrySendError::Full` if the inbox is at capacity; otherwise enqueues. -/
def IsolatedForwarder.try_send {α : Type} (f : IsolatedForwarder α) (value : α) :
    Bool × IsolatedForwarder α :=
  if f.closed then
    (false, f)
  else if f.inbox.length < isolated_inbox_capacity then
    (true, { f with inbox := f.inbox ++ [value] })
  else
    (false, f)

/-! ### Iterated-operation helpers (used to state the queue claims) -/

/-- Push a whole sequence of values into a drop-oldest queue, oldest first. -/
def FifoDropOldestQueue.push_all {α : Type} (q : FifoDropOldestQueue α) (xs : List α) :
    FifoDropOldestQueue α :=
  xs.foldl FifoDropOldestQueue.push_overwrite q

/-- Deliver a whole sequence of values into a latest-slot queue, oldest
first. -/
def Latest1Queue.set_all {α : Type} (q : Latest1Queue α) (xs : List α) : Latest1Queue α :=
  xs.foldl Latest1Queue.set q

lemma FifoDropOldestQueue.push_all_append {α : Type} (q : FifoDropOldestQueue α)
    (xs : List α) (x : α) :
    q.push_all (xs ++ [x]) = (q.push_all xs).push_overwrite x := by
  simp [FifoDropOldestQueue.push_all, List.foldl_append]

lemma FifoDropOldestQueue.push_all_capacity {α : Type} (q : FifoDropOldestQueue α)
    (xs : List α) : (q.push_all xs).capacity = q.capacity := by
  induction xs generalizing q with
  | nil => rfl
  | cons x rest ih =>
    simp only [FifoDropOldestQueue.push_all, List.foldl_cons] at *
    rw [ih]
    rfl

/-- The contents of a fresh drop-oldest queue after pushing `xs`: exactly the
last `capacity` pushed items, in push order. -/
lemma FifoDropOldestQueue.push_all_empty_buf {α : Type} (c : Nat) (xs : List α) (hc : 1 ≤ c) :
    ((FifoDropOldestQueue.mk_empty α c).push_all xs).buf = xs.drop (xs.length - c) := by
  induction xs using List.reverseRecOn with
  | nil => simp [FifoDropOldestQueue.push_all, FifoDropOldestQueue.mk_empty]
  | append_singleton xs x ih =>
    rw [FifoDropOldestQueue.push_all_append]
    rcases Nat.lt_or_ge xs.length c with h | h
    · -- not yet full: append at the back, no eviction
      have hlen : ((FifoDropOldestQueue.mk_empty α c).push_all xs).buf.length = xs.length := by
        rw [ih, List.length_drop]
        omega
      have hcap : ((FifoDropOldestQueue.mk_empty α c).push_all xs).capacity = c :=
        FifoDropOldestQueue.push_all_capacity _ _
      simp only [FifoDropOldestQueue.push_overwrite, hcap, hlen, if_neg (Nat.not_le.mpr h)]
      rw [ih]
      have h0 : xs.length - c = 0 := by omega
      have h1 : (xs ++ [x]).length - c = 0 := by simp; omega
      rw [h0, h1, List.drop_zero, List.drop_zero]
    · -- full: evict the front, append at the back
      have hlen : ((FifoDropOldestQueue.mk_empty α c).push_all xs).buf.length = c := by
        rw [ih, List.length_drop]
        omega
      have hcap : ((FifoDropOldestQueue.mk_empty α c).push_all xs).capacity = c :=
        FifoDropOldestQueue.push_all_capacity _ _
      simp only [FifoDropOldestQueue.push_overwrite, hcap, hlen, if_pos (Nat.le_refl c)]
      rw [ih, List.tail_drop]
      have h1 : (xs ++ [x]).length - c = (xs.length - c) + 1 := by simp; omega
      rw [h1, List.drop_append_of_le_length (by omega)]

/-- C2 main content, general form. -/
lemma FifoDropOldestQueue.push_all_spec {α : Type} (c : Nat) (xs : List α)
    (hc : 1 ≤ c) (h : c < xs.length) :
    ((FifoDropOldestQueue.mk_empty α c).push_all xs).buf = xs.drop (xs.length - c) ∧
      ((FifoDropOldestQueue.mk_empty α c).push_all xs).buf.length = c := by
  refine ⟨FifoDropOldestQueue.push_all_empty_buf c xs hc, ?_⟩
  rw [FifoDropOldestQueue.push_all_empty_buf c xs hc, List.length_drop]
  omega

/-- C2: a bounded-FIFO-drop-oldest queue of capacity `c ≥ 1`, after a sequence
of more than `c` pushes with no intervening reads, contains exactly the last
`c` pushed items in push order (oldest at the front); and a push onto a full
queue evicts the front item and appends the new item at the back. -/
theorem c2_fifo_drop_oldest_keeps_last_capacity {α : Type} (c : Nat) (xs : List α)
    (hc : 1 ≤ c) (h : c < xs.length) :
    ((FifoDropOldestQueue.mk_empty α c).push_all xs).buf = xs.drop (xs.length - c) ∧
    ((FifoDropOldestQueue.mk_empty α c).push_all xs).buf.length = c ∧
    (∀ (q : FifoDropOldestQueue α) (v : α), q.buf.length = q.capacity →
      (q.push_overwrite v).buf = q.buf.tail ++ [v]) := by
  obtain ⟨h1, h2⟩ := FifoDropOldestQueue.push_all_spec c xs hc h
  refine ⟨h1, h2, ?_⟩
  intro q v hfull
  simp [FifoDropOldestQueue.push_overwrite, hfull]

/-- Witness for C2 at capacity 2 and pushes `[1, 2, 3]`. -/
theorem c2_witness :
    1 ≤ 2 ∧ 2 < ([1, 2, 3] : List Nat).length ∧
      ((FifoDropOldestQueue.mk_empty Nat 2).push_all [1, 2, 3]).buf =
        ([1, 2, 3] : List Nat).drop (([1, 2, 3] : List Nat).length - 2) :=
  ⟨by decide, by decide,
    (c2_fifo_drop_oldest_keeps_last_capacity 2 [1, 2, 3] (by decide) (by decide)).1⟩

/-- C8: a latest-slot queue, after `N ≥ 1` deliveries with no intervening
read, yields exactly the most recent value on the first read and nothing on a
second read; each delivery unconditionally overwrites the slot. -/
theorem c8_latest1_keeps_only_newest {α : Type} (q : Latest1Queue α) (xs : List α) (v : α) :
    (q.set_all (xs ++ [v])).try_recv.1 = some v ∧
    ((q.set_all (xs ++ [v])).try_recv.2).try_recv.1 = none ∧
    (∀ (q' : Latest1Queue α) (w : α), (q'.set w).slot = some w) := by
  have h : q.set_all (xs ++ [v]) = { slot := some v } := by
    simp [Latest1Queue.set_all, List.foldl_append, Latest1Queue.set]
  refine ⟨?_, ?_, fun q' w => rfl⟩
  · rw [h]; rfl
  · rw [h]; rfl

/-! ### Routes (`core/src/routes/mod.rs`) -/

/-- `RouteInbox`: the per-subscription inbox behind a route. -/
inductive RouteInbox where
  | latest1 (q : Latest1Queue EnrichedEvent)
  | fifoDropOldest (q : FifoDropOldestQueue EnrichedEvent)
  | isolated (f : IsolatedForwarder EnrichedEvent)
deriving DecidableEq

/-- `RouteInbox::try_deliver`: latest-slot and drop-oldest deliveries always
succeed; an isolated delivery succeeds iff `try_send` into the internal inbox
succeeds. -/
def RouteInbox.try_deliver (inbox : RouteInbox) (e : EnrichedEvent) : Bool × RouteInbox :=
  match inbox with
  | .latest1 q => (true, .latest1 (q.set e))
  | .fifoDropOldest q => (true, .fifoDropOldest (q.push_overwrite e))
  | .isolated f =>
      let r := f.try_send e
      (r.1, .isolated r.2)

/-- Discriminator for the isolated-forwarder policy. -/
def RouteInbox.isIsolated : RouteInbox → Bool
  | .isolated _ => true
  | _ => false

/-- `Route`: subscriber identity, inbox, and the per-subscription drop
counter (`drops_total : AtomicU64`, modelled as `Nat`). -/
structure Route where
  subscriber_id : String
  inbox : RouteInbox
  drops_total : Nat
deriving DecidableEq

/-- `Routes`: the routing table, `HashMap<&'static str, Vec<Route>>` modelled
as an association list (the builder inserts each key once). -/
structure Routes where
  table : List (String × List Route)
deriving DecidableEq

/-- `self.routes.table.get(tag)`: first (and only) entry for the tag. -/
def Routes.find? (rs : Routes) (ty : String) : Option (List Route) :=
  go rs.table
where
  go : List (String × List Route) → Option (List Route)
    | [] => none
    | (k, v) :: rest => if k = ty then some v else go rest

/-- Write back the updated route list for a tag (the queues behind the first
matching entry mutated during fan-out). -/
def Routes.set_at (rs : Routes) (ty : String) (v : List Route) : Routes :=
  ⟨go rs.table⟩
where
  go : List (String × List Route) → List (String × List Route)
    | [] => []
    | (k, w) :: rest => if k = ty then (k, v) :: rest else (k, w) :: go rest

/-! ### Event bus (`core/src/events/bus.rs`, `bus_builder.rs`) -/

/-- `BusConfig` (session id modelled as `Nat`). -/
structure BusConfig where
  session_id : Nat
  strict_routing : Bool
deriving DecidableEq

/-- `BusMetrics`: the unrouted-publish counter. -/
structure BusMetrics where
  unrouted_publish_total : Nat
deriving DecidableEq

/-- The `AtomicU64` sequence counter wraps at `2^64`. -/
def u64_size : Nat := 2 ^ 64

/-- `EventBus` state (the `Arc<EventBusInner>` contents). -/
structure EventBus where
  session_id : Nat
  next_ingest_seq : Nat
  routes : Routes
  metrics : BusMetrics
  strict_routing : Bool
deriving DecidableEq

/-- `EventBus::new`: counter starts at 0. -/
def EventBus.new (cfg : BusConfig) (routes : Routes) (metrics : BusMetrics) : EventBus :=
  { session_id := cfg.session_id
    next_ingest_seq := 0
    routes := routes
    metrics := metrics
    strict_routing := cfg.strict_routing }

/-- Outcome of a `publish` call: either a normal return or a `panic!`
(strict-mode unrouted event), with the bus state at that point. -/
inductive PublishResult where
  | normal (bus : EventBus)
  | panicked (bus : EventBus) (msg : String)
deriving DecidableEq

/-- Bus state carried by either outcome. -/
def PublishResult.bus : PublishResult → EventBus
  | .normal b => b
  | .panicked b _ => b

/-- The `for route in routes` fan-out loop of `EventBus::publish`: deliver to
each route's inbox, bumping `drops_total` on a rejected delivery. -/
def deliver_all (e : EnrichedEvent) : List Route → List Route
  | [] => []
  | r :: rest =>
      let d := r.inbox.try_deliver e
      { r with
        inbox := d.2
        drops_total := r.drops_total + (if d.1 then 0 else 1) } :: deliver_all e rest

/-- `EventBus::publish`: assign the next sequence number (`fetch_add`, wraps
mod `2^64`), wrap into an `EnrichedEvent`, look up the routes for the event's
type tag; on a miss bump the unrouted counter and panic in strict mode,
otherwise fan out non-blockingly to every matching route. -/
def EventBus.publish (bus : EventBus) (ev : Ev) : PublishResult :=
  let ingest_ns := bus.next_ingest_seq
  let bus1 : EventBus := { bus with next_ingest_seq := (bus.next_ingest_seq + 1) % u64_size }
  let e : EnrichedEvent := { event := ev, ingest_ns := ingest_ns, session_id := bus.session_id }
  match bus1.routes.find? ev.event_type with
  | none =>
      let bus2 : EventBus :=
        { bus1 with metrics := ⟨bus1.metrics.unrouted_publish_total + 1⟩ }
      if bus2.strict_routing then
        .panicked bus2 ("Unrouted event type: " ++ ev.event_type)
      else
        .normal bus2
  | some rs =>
      .normal { bus1 with routes := bus1.routes.set_at ev.event_type (deliver_all e rs) }

/-- Publish a whole sequence of events, continuing from the state carried by
each outcome (used to reason about the sequence counter). -/
def EventBus.publish_all (bus : EventBus) (es : List Ev) : EventBus :=
  es.foldl (fun b e => (b.publish e).bus) bus

/-- The sequence number assigned by the `n`-th (0-based) publish call of `es`
on `bus`: the counter value right before that call. -/
def EventBus.seq_assigned_at (bus : EventBus) (es : List Ev) (n : Nat) : Nat :=
  (bus.publish_all (es.take n)).next_ingest_seq

/-- C1: publishing an event whose type tag has no entry in the routing table
increments the unrouted counter by exactly 1, leaves the routing table (hence
every queue) untouched, and then panics iff strict routing is enabled;
otherwise `publish` returns normally. -/
theorem c1_unrouted_publish (bus : EventBus) (ev : Ev)
    (h : bus.routes.find? ev.event_type = none) :
    ∃ bus' : EventBus,
      bus.publish ev =
        (if bus.strict_routing then
          PublishResult.panicked bus' ("Unrouted event type: " ++ ev.event_type)
        else
          PublishResult.normal bus') ∧
      bus'.metrics.unrouted_publish_total = bus.metrics.unrouted_publish_total + 1 ∧
      bus'.routes = bus.routes ∧
      bus'.next_ingest_seq = (bus.next_ingest_seq + 1) % u64_size := by
  refine ⟨{ bus with
              next_ingest_seq := (bus.next_ingest_seq + 1) % u64_size
              metrics := ⟨bus.metrics.unrouted_publish_total + 1⟩ }, ?_, rfl, rfl, rfl⟩
  cases hb : bus.strict_routing <;>
    simp [EventBus.publish, h, hb]

/-- Witness for C1: a bus with an empty routing table and strict routing
disabled. -/
theorem c1_witness :
    (EventBus.new ⟨0, false⟩ ⟨[]⟩ ⟨0⟩).routes.find? "t" = none ∧
    ∃ bus' : EventBus,
      (EventBus.new ⟨0, false⟩ ⟨[]⟩ ⟨0⟩).publish ⟨1, [], "t"⟩ =
        (if (EventBus.new ⟨0, false⟩ ⟨[]⟩ ⟨0⟩).strict_routing then
          PublishResult.panicked bus' ("Unrouted event type: " ++ "t")
        else
          PublishResult.normal bus') ∧
      bus'.metrics.unrouted_publish_total =
        (EventBus.new ⟨0, false⟩ ⟨[]⟩ ⟨0⟩).metrics.unrouted_publish_total + 1 ∧
      bus'.routes = (EventBus.new ⟨0, false⟩ ⟨[]⟩ ⟨0⟩).routes ∧
      bus'.next_ingest_seq = ((EventBus.new ⟨0, false⟩ ⟨[]⟩ ⟨0⟩).next_ingest_seq + 1) % u64_size :=
  ⟨rfl, c1_unrouted_publish (EventBus.new ⟨0, false⟩ ⟨[]⟩ ⟨0⟩) ⟨1, [], "t"⟩ rfl⟩

/-! ### Sequence-counter lemmas for C7 -/

lemma publish_counter (bus : EventBus) (ev : Ev) :
    (bus.publish ev).bus.next_ingest_seq = (bus.next_ingest_seq + 1) % u64_size := by
  unfold EventBus.publish
  cases h : ((⟨bus.session_id, (bus.next_ingest_seq + 1) % u64_size, bus.routes,
      bus.metrics, bus.strict_routing⟩ : EventBus)).routes.find? ev.event_type with
  | none => cases hb : bus.strict_routing <;> simp [h, hb, PublishResult.bus]
  | some rs => simp [h, PublishResult.bus]

lemma mod_succ_mod (n M : Nat) : (n % M + 1) % M = (n + 1) % M :=
  Nat.ModEq.add_right 1 (Nat.mod_modEq n M)

lemma publish_all_counter (es : List Ev) (bus : EventBus)
    (hs : bus.next_ingest_seq < u64_size) :
    (bus.publish_all es).next_ingest_seq = (bus.next_ingest_seq + es.length) % u64_size := by
  induction es generalizing bus with
  | nil =>
      simp [EventBus.publish_all, Nat.mod_eq_of_lt hs]
  | cons e rest ih =>
      have hM : 0 < u64_size := by norm_num [u64_size]
      have h1 : ((bus.publish e).bus).next_ingest_seq = (bus.next_ingest_seq + 1) % u64_size :=
        publish_counter bus e
      have h2 : ((bus.publish e).bus).next_ingest_seq < u64_size := by
        rw [h1]; exact Nat.mod_lt _ hM
      have := ih ((bus.publish e).bus) h2
      simp only [EventBus.publish_all, List.foldl_cons] at *
      rw [this, h1]
      simp only [List.length_cons]
      calc ((bus.next_ingest_seq + 1) % u64_size + rest.length) % u64_size
          = (bus.next_ingest_seq + 1 + rest.length) % u64_size :=
            Nat.ModEq.add_right rest.length (Nat.mod_modEq _ _)
        _ = (bus.next_ingest_seq + (rest.length + 1)) % u64_size := by
            congr 1
            omega

/-- C7: on a freshly constructed bus, the `i`-th publish call assigns sequence
number `i` (assigned once, at publish time, from the atomic counter); hence
for any two publish calls `i < j` (with `j` below the `u64` wrap bound) the
earlier call's sequence number is strictly smaller, and in particular all
sequence numbers are distinct within one bus instance. -/
theorem c7_sequence_numbers_strictly_increase (cfg : BusConfig) (routes : Routes)
    (metrics : BusMetrics) (es : List Ev) (i j : Nat)
    (hij : i < j) (hj : j < es.length) (hw : j < u64_size) :
    (EventBus.new cfg routes metrics).seq_assigned_at es i = i ∧
    (EventBus.new cfg routes metrics).seq_assigned_at es j = j ∧
    (EventBus.new cfg routes metrics).seq_assigned_at es i <
      (EventBus.new cfg routes metrics).seq_assigned_at es j ∧
    (EventBus.new cfg routes metrics).seq_assigned_at es i ≠
      (EventBus.new cfg routes metrics).seq_assigned_at es j := by
  have hM : 0 < u64_size := by norm_num [u64_size]
  have key : ∀ n : Nat, n < es.length → n < u64_size →
      (EventBus.new cfg routes metrics).seq_assigned_at es n = n := by
    intro n hn hnw
    unfold EventBus.seq_assigned_at
    rw [publish_all_counter _ _ (by simpa [EventBus.new] using hM)]
    simp only [EventBus.new, List.length_take, Nat.zero_add]
    rw [Nat.min_eq_left (Nat.le_of_lt hn), Nat.mod_eq_of_lt hnw]
  have hi := key i (Nat.lt_trans hij hj) (Nat.lt_trans hij hw)
  have hjj := key j hj hw
  exact ⟨hi, hjj, by rw [hi, hjj]; exact hij, by rw [hi, hjj]; exact Nat.ne_of_lt hij⟩

/-- Witness for C7: a fresh bus publishing two concrete events. -/
theorem c7_witness :
    (EventBus.new ⟨0, false⟩ ⟨[]⟩ ⟨0⟩).seq_assigned_at [⟨1, [], "a"⟩, ⟨2, [], "b"⟩] 0 = 0 ∧
    (EventBus.new ⟨0, false⟩ ⟨[]⟩ ⟨0⟩).seq_assigned_at [⟨1, [], "a"⟩, ⟨2, [], "b"⟩] 1 = 1 ∧
    (EventBus.new ⟨0, false⟩ ⟨[]⟩ ⟨0⟩).seq_assigned_at [⟨1, [], "a"⟩, ⟨2, [], "b"⟩] 0 <
      (EventBus.new ⟨0, false⟩ ⟨[]⟩ ⟨0⟩).seq_assigned_at [⟨1, [], "a"⟩, ⟨2, [], "b"⟩] 1 ∧
    (EventBus.new ⟨0, false⟩ ⟨[]⟩ ⟨0⟩).seq_assigned_at [⟨1, [], "a"⟩, ⟨2, [], "b"⟩] 0 ≠
      (EventBus.new ⟨0, false⟩ ⟨[]⟩ ⟨0⟩).seq_assigned_at [⟨1, [], "a"⟩, ⟨2, [], "b"⟩] 1 :=
  c7_sequence_numbers_strictly_increase ⟨0, false⟩ ⟨[]⟩ ⟨0⟩
    [⟨1, [], "a"⟩, ⟨2, [], "b"⟩] 0 1 (by decide) (by decide)
    (by norm_num [u64_size])

/-! ### Drop accounting for C10 -/

lemma deliver_all_get? (e : EnrichedEvent) (rs : List Route) (n : Nat) (r : Route)
    (h : rs.get? n = some r) :
    (deliver_all e rs).get? n =
      some { r with
              inbox := (r.inbox.try_deliver e).2
              drops_total := r.drops_total + (if (r.inbox.try_deliver e).1 then 0 else 1) } := by
  induction rs generalizing n with
  | nil => simp at h
  | cons hd tl ih =>
      cases n with
      | zero =>
          simp only [List.get?] at h
          cases h
          rfl
      | succ m =>
          simp only [List.get?] at h
          simpa [deliver_all] using ih m h

/-- C10 counterexample, as stated the claim is false: delivering to an
isolated route whose internal inbox is *empty but closed* (the drain task has
exited) is rejected — `try_send` fails with `TrySendError::Closed` — and the
drop counter is incremented even though the internal inbox is not full. -/
theorem c10_counterexample :
    ((deliver_all ⟨⟨7, [], "t"⟩, 0, 0⟩
        [⟨"w", .isolated ⟨[], true⟩, 0⟩]).map Route.drops_total = [1]) ∧
    (⟨[], true⟩ : IsolatedForwarder EnrichedEvent).inbox.length <
      isolated_inbox_capacity :=
  ⟨rfl, by decide⟩

/-- C10 (amended): `try_deliver` on a latest-slot or drop-oldest inbox always
returns true; an isolated delivery fails exactly when the non-blocking
`try_send` into the internal 16-slot inbox is rejected — the inbox is full,
or the channel is closed because the drain task has exited; consequently, in
the publish fan-out, a route's drop counter changes only if its inbox is an
isolated forwarder, and then by exactly 1 — a drop-oldest eviction is never
counted as a drop. -/
theorem c10_drops_only_for_isolated (e : EnrichedEvent) :
    (∀ q : Latest1Queue EnrichedEvent, ((RouteInbox.latest1 q).try_deliver e).1 = true) ∧
    (∀ q : FifoDropOldestQueue EnrichedEvent,
      ((RouteInbox.fifoDropOldest q).try_deliver e).1 = true) ∧
    (∀ f : IsolatedForwarder EnrichedEvent,
      (((RouteInbox.isolated f).try_deliver e).1 = false ↔
        (f.closed = true ∨ isolated_inbox_capacity ≤ f.inbox.length))) ∧
    (∀ (rs : List Route) (n : Nat) (r r' : Route),
      rs.get? n = some r → (deliver_all e rs).get? n = some r' →
      r'.drops_total ≠ r.drops_total →
      r.inbox.isIsolated = true ∧ r'.drops_total = r.drops_total + 1) := by
  refine ⟨fun q => rfl, fun q => rfl, ?_, ?_⟩
  · intro f
    simp only [RouteInbox.try_deliver, IsolatedForwarder.try_send]
    by_cases hcl : f.closed
    · simp [hcl]
    · by_cases hf : f.inbox.length < isolated_inbox_capacity
      · simp only [hcl, hf, if_false, if_true, Bool.false_eq_true]
        simp
        omega
      · simp only [hcl, hf, if_false, Bool.false_eq_true]
        simp [hcl]
        omega
  · intro rs n r r' h1 h2 hne
    rw [deliver_all_get? e rs n r h1] at h2
    cases h2
    cases hi : r.inbox with
    | latest1 q => simp [hi, RouteInbox.try_deliver] at hne
    | fifoDropOldest q => simp [hi, RouteInbox.try_deliver] at hne
    | isolated f =>
        constructor
        · rfl
        · by_cases hcl : f.closed
          · simp [hi, RouteInbox.try_deliver, IsolatedForwarder.try_send, hcl]
          · by_cases hf : f.inbox.length < isolated_inbox_capacity
            · exfalso
              simp [hi, RouteInbox.try_deliver, IsolatedForwarder.try_send, hcl, hf] at hne
            · simp [hi, RouteInbox.try_deliver, IsolatedForwarder.try_send, hcl, hf]

/-- Witness for C10's amended theorem: a single isolated route whose open
internal inbox already holds 16 items — the delivery is dropped and
counted. -/
theorem c10_witness :
    ([(⟨"w", .isolated ⟨List.replicate 16 ⟨⟨9, [], "t"⟩, 0, 0⟩, false⟩, 0⟩ : Route)].get? 0 =
      some ⟨"w", .isolated ⟨List.replicate 16 ⟨⟨9, [], "t"⟩, 0, 0⟩, false⟩, 0⟩) ∧
    ((⟨"w", .isolated ⟨List.replicate 16 ⟨⟨9, [], "t"⟩, 0, 0⟩, false⟩, 0⟩ :
        Route).inbox.isIsolated = true ∧
      (⟨"w", .isolated ⟨List.replicate 16 ⟨⟨9, [], "t"⟩, 0, 0⟩, false⟩, 1⟩ :
          Route).drops_total =
        (⟨"w", .isolated ⟨List.replicate 16 ⟨⟨9, [], "t"⟩, 0, 0⟩, false⟩, 0⟩ :
          Route).drops_total + 1) :=
  ⟨rfl,
    (c10_drops_only_for_isolated ⟨⟨7, [], "t"⟩, 0, 0⟩).2.2.2
      [⟨"w", .isolated ⟨List.replicate 16 ⟨⟨9, [], "t"⟩, 0, 0⟩, false⟩, 0⟩] 0
      ⟨"w", .isolated ⟨List.replicate 16 ⟨⟨9, [], "t"⟩, 0, 0⟩, false⟩, 0⟩
      ⟨"w", .isolated ⟨List.replicate 16 ⟨⟨9, [], "t"⟩, 0, 0⟩, false⟩, 1⟩
      rfl (by decide) (by decide)⟩

/-! ### Bus builder (`core/src/events/bus_builder.rs`) -/

/-- `core/src/queues/mod.rs`: `QueueKind`. -/
inductive QueueKind where
  | latest1
  | fifoDropOldest (capacity : Nat)
  | boundedDropNewest (capacity : Nat)
  | isolated (output_buffer : Nat)
deriving DecidableEq

/-- `core/src/workers/wiring.rs`: `InputSpec`. -/
structure InputSpec where
  event_type : String
  queue_kind : QueueKind
deriving DecidableEq

/-- `core/src/workers/wiring.rs`: `SubscriptionSpec`. -/
structure SubscriptionSpec where
  subscriber_id : String
  inputs : List InputSpec
deriving DecidableEq

/-- Rust's `s.trim().is_empty()`: true iff every character of `s` is
whitespace. -/
def trim_is_empty (s : String) : Bool :=
  (s.data.dropWhile Char.isWhitespace).isEmpty

/-- The per-input half of `validate` in `bus_builder.rs`: empty event type,
duplicate event type within one subscriber, and zero capacity / buffer
checks, in source order.  `seen` is the `seen_inputs` hash set. -/
def validate_inputs (subscriber_id : String) : List String → List InputSpec →
    Except String Unit
  | _, [] => .ok ()
  | seen, i :: rest =>
      if trim_is_empty i.event_type then
        .error ("subscriber_id=" ++ subscriber_id ++ " has empty event_type")
      else if seen.contains i.event_type then
        .error ("subscriber_id=" ++ subscriber_id ++ " has duplicate input event_type=" ++
          i.event_type)
      else
        match i.queue_kind with
        | .latest1 => validate_inputs subscriber_id (i.event_type :: seen) rest
        | .fifoDropOldest capacity =>
            if 0 < capacity then validate_inputs subscriber_id (i.event_type :: seen) rest
            else .error "capacity must be > 0"
        | .boundedDropNewest capacity =>
            if 0 < capacity then validate_inputs subscriber_id (i.event_type :: seen) rest
            else .error "capacity must be > 0"
        | .isolated output_buffer =>
            if 0 < output_buffer then validate_inputs subscriber_id (i.event_type :: seen) rest
            else .error "output_buffer must be > 0"

/-- The per-subscriber half of `validate`: empty identity, duplicate identity,
zero inputs, then the per-input checks.  `seen` is the `seen_subscribers`
hash set. -/
def validate_subs : List String → List SubscriptionSpec → Except String Unit
  | _, [] => .ok ()
  | seen, s :: rest =>
      if trim_is_empty s.subscriber_id then
        .error "empty subscriber_id"
      else if seen.contains s.subscriber_id then
        .error ("duplicate subscriber_id=" ++ s.subscriber_id)
      else if s.inputs.isEmpty then
        .error ("subscriber_id=" ++ s.subscriber_id ++ " has no inputs")
      else
        match validate_inputs s.subscriber_id [] s.inputs with
        | .error m => .error m
        | .ok _ => validate_subs (s.subscriber_id :: seen) rest

/-- `validate` in `bus_builder.rs`. -/
def validate (subs : List SubscriptionSpec) : Except String Unit :=
  validate_subs [] subs

/-- `routes.entry(event_type).or_default().push(route)`: append to the
existing entry for the tag or create a fresh one. -/
def push_route (tbl : List (String × List Route)) (ty : String) (r : Route) :
    List (String × List Route) :=
  match tbl with
  | [] => [(ty, [r])]
  | (k, rs) :: rest =>
      if k = ty then (k, rs ++ [r]) :: rest else (k, rs) :: push_route rest ty r

/-- One iteration of the queue-allocation loop in `EventBusBuilder::build`.
The `BoundedDropNewest` arm is `unimplemented!("Not need for now")` — a panic,
modelled as `Except.error`.  (The worker-side input handles alias the same
queues and are not needed by the claims.) -/
def build_input (subscriber_id : String) (tbl : List (String × List Route)) (i : InputSpec) :
    Except String (List (String × List Route)) :=
  match i.queue_kind with
  | .latest1 =>
      .ok (push_route tbl i.event_type ⟨subscriber_id, .latest1 ⟨none⟩, 0⟩)
  | .fifoDropOldest capacity =>
      .ok (push_route tbl i.event_type
        ⟨subscriber_id, .fifoDropOldest (FifoDropOldestQueue.mk_empty _ capacity), 0⟩)
  | .boundedDropNewest _ => .error "Not need for now"
  | .isolated _ =>
      .ok (push_route tbl i.event_type ⟨subscriber_id, .isolated ⟨[], false⟩, 0⟩)

/-- The inner `for input in spec.inputs` loop of `build`. -/
def build_inputs (subscriber_id : String) :
    List (String × List Route) → List InputSpec → Except String (List (String × List Route))
  | tbl, [] => .ok tbl
  | tbl, i :: rest =>
      match build_input subscriber_id tbl i with
      | .error m => .error m
      | .ok tbl' => build_inputs subscriber_id tbl' rest

/-- The outer `for spec in self.subs` loop of `build`. -/
def build_specs :
    List (String × List Route) → List SubscriptionSpec → Except String (List (String × List Route))
  | tbl, [] => .ok tbl
  | tbl, s :: rest =>
      match build_inputs s.subscriber_id tbl s.inputs with
      | .error m => .error m
      | .ok tbl' => build_specs tbl' rest

/-- Outcome of `EventBusBuilder::build`: a built bus, a validation `Err`, or a
panic (`unimplemented!`). -/
inductive BuildResult where
  | ok (bus : EventBus)
  | err (msg : String)
  | panic (msg : String)
deriving DecidableEq

/-- Whether a build outcome is a `Result::Err`. -/
def BuildResult.isErr : BuildResult → Bool
  | .err _ => true
  | _ => false

/-- `EventBusBuilder::build`: validate the declarations (returning `Err` on a
validation failure), then allocate queues and the routing table (panicking on
a `BoundedDropNewest` input), and construct the bus with a zeroed metrics
struct. -/
def EventBusBuilder.build (cfg : BusConfig) (subs : List SubscriptionSpec) : BuildResult :=
  match validate subs with
  | .error m => .err m
  | .ok _ =>
      match build_specs [] subs with
      | .error m => .panic m
      | .ok tbl => .ok (EventBus.new cfg ⟨tbl⟩ ⟨0⟩)

/-- Does an input declare the (unimplemented) bounded-drop-newest policy? -/
def InputSpec.isDropNewest (i : InputSpec) : Prop :=
  ∃ c, i.queue_kind = QueueKind.boundedDropNewest c

lemma build_inputs_ok_of_no_drop_newest (subscriber_id : String) (inputs : List InputSpec)
    (h : ∀ i ∈ inputs, ¬ i.isDropNewest) (tbl : List (String × List Route)) :
    ∃ tbl', build_inputs subscriber_id tbl inputs = .ok tbl' := by
  induction inputs generalizing tbl with
  | nil => exact ⟨tbl, rfl⟩
  | cons i rest ih =>
      have hi : ¬ i.isDropNewest := h i (List.mem_cons_self i rest)
      have hrest : ∀ j ∈ rest, ¬ j.isDropNewest := fun j hj => h j (List.mem_cons_of_mem i hj)
      cases hk : i.queue_kind with
      | boundedDropNewest c => exact absurd ⟨c, hk⟩ hi
      | latest1 =>
          simpa [build_inputs, build_input, hk] using ih hrest _
      | fifoDropOldest c =>
          simpa [build_inputs, build_input, hk] using ih hrest _
      | isolated b =>
          simpa [build_inputs, build_input, hk] using ih hrest _

lemma build_inputs_panics_of_drop_newest (subscriber_id : String) (inputs : List InputSpec)
    (h : ∃ i ∈ inputs, i.isDropNewest) (tbl : List (String × List Route)) :
    build_inputs subscriber_id tbl inputs = .error "Not need for now" := by
  induction inputs generalizing tbl with
  | nil => simp at h
  | cons i rest ih =>
      cases hk : i.queue_kind with
      | boundedDropNewest c =>
          simp [build_inputs, build_input, hk]
      | latest1 =>
          obtain ⟨j, hj, hjd⟩ := h
          rcases List.mem_cons.mp hj with rfl | hjrest
          · obtain ⟨c, hc⟩ := hjd
            rw [hk] at hc
            cases hc
          · simpa [build_inputs, build_input, hk] using ih ⟨j, hjrest, hjd⟩ _
      | fifoDropOldest c =>
          obtain ⟨j, hj, hjd⟩ := h
          rcases List.mem_cons.mp hj with rfl | hjrest
          · obtain ⟨c', hc⟩ := hjd
            rw [hk] at hc
            cases hc
          · simpa [build_inputs, build_input, hk] using ih ⟨j, hjrest, hjd⟩ _
      | isolated b =>
          obtain ⟨j, hj, hjd⟩ := h
          rcases List.mem_cons.mp hj with rfl | hjrest
          · obtain ⟨c', hc⟩ := hjd
            rw [hk] at hc
            cases hc
          · simpa [build_inputs, build_input, hk] using ih ⟨j, hjrest, hjd⟩ _

lemma build_specs_panics_of_drop_newest (subs : List SubscriptionSpec)
    (h : ∃ s ∈ subs, ∃ i ∈ s.inputs, i.isDropNewest) (tbl : List (String × List Route)) :
    build_specs tbl subs = .error "Not need for now" := by
  induction subs generalizing tbl with
  | nil => simp at h
  | cons s rest ih =>
      by_cases hs : ∃ i ∈ s.inputs, i.isDropNewest
      · rw [show build_specs tbl (s :: rest) =
            (match build_inputs s.subscriber_id tbl s.inputs with
              | .error m => .error m
              | .ok tbl' => build_specs tbl' rest) from rfl]
        rw [build_inputs_panics_of_drop_newest s.subscriber_id s.inputs hs tbl]
      · push_neg at hs
        obtain ⟨tbl', htbl'⟩ :=
          build_inputs_ok_of_no_drop_newest s.subscriber_id s.inputs hs tbl
        obtain ⟨s', hs', hi'⟩ := h
        rcases List.mem_cons.mp hs' with rfl | hsrest
        · obtain ⟨i, hi, hid⟩ := hi'
          exact absurd hid (hs i hi)
        · rw [show build_specs tbl (s :: rest) =
              (match build_inputs s.subscriber_id tbl s.inputs with
                | .error m => .error m
                | .ok tbl' => build_specs tbl' rest) from rfl]
          rw [htbl']
          exact ih ⟨s', hsrest, hi'⟩ tbl'

/-- C5 counterexample input: one subscriber with one bounded-drop-newest input
of capacity 1.  This passes validation, so `build` reaches the allocation
loop. -/
def c5_subs : List SubscriptionSpec :=
  [⟨"w", [⟨"t", QueueKind.boundedDropNewest 1⟩]⟩]

/-- C5 counterexample, as stated the claim is false: on a declaration list
containing a bounded-drop-newest input with nonzero capacity, `build` does
not return a build `Err` — it panics (`unimplemented!("Not need for now")`). -/
theorem c5_counterexample :
    (EventBusBuilder.build ⟨0, false⟩ c5_subs).isErr = false ∧
    EventBusBuilder.build ⟨0, false⟩ c5_subs = BuildResult.panic "Not need for now" := by
  constructor <;> rfl

/-- C5 amended: if the declarations pass validation and some subscriber
declares a bounded-drop-newest input, `build` panics with the
`unimplemented!` message — still at build time, before any event can flow,
but as a panic rather than an `Err`. -/
theorem c5_drop_newest_fails_at_build_time (cfg : BusConfig) (subs : List SubscriptionSpec)
    (hv : validate subs = .ok ())
    (hd : ∃ s ∈ subs, ∃ i ∈ s.inputs, i.isDropNewest) :
    EventBusBuilder.build cfg subs = BuildResult.panic "Not need for now" := by
  unfold EventBusBuilder.build
  rw [hv, build_specs_panics_of_drop_newest subs hd []]

/-- Witness for C5's amended theorem at the concrete declaration list. -/
theorem c5_witness :
    validate c5_subs = .ok () ∧
    EventBusBuilder.build ⟨0, false⟩ c5_subs = BuildResult.panic "Not need for now" :=
  ⟨rfl, c5_drop_newest_fails_at_build_time ⟨0, false⟩ c5_subs rfl
    ⟨⟨"w", [⟨"t", QueueKind.boundedDropNewest 1⟩]⟩, by simp [c5_subs],
      ⟨"t", QueueKind.boundedDropNewest 1⟩, by simp, 1, rfl⟩⟩

/-! ### Worker inputs (`core/src/workers/worker_inputs.rs`) -/

/-- `Latest1Input`: a latest-slot input of one subscriber. -/
structure Latest1Input where
  event_type : String
  queue : Latest1Queue EnrichedEvent
deriving DecidableEq

/-- `FifoReceiver`: the subscriber-side read end of a FIFO-class input
(the drop-oldest ring or the isolated forwarder's output `mpsc` channel,
modelled by its buffered contents, front first). -/
inductive FifoReceiver where
  | fifoDropOldest (q : FifoDropOldestQueue EnrichedEvent)
  | isolated (chan : List EnrichedEvent)
deriving DecidableEq

/-- `try_recv` on either receiver: pop the front item, if any. -/
def FifoReceiver.try_recv : FifoReceiver → Option EnrichedEvent × FifoReceiver
  | .fifoDropOldest q =>
      let r := q.try_recv
      (r.1, .fifoDropOldest r.2)
  | .isolated [] => (none, .isolated [])
  | .isolated (e :: rest) => (some e, .isolated rest)

/-- The front item a receiver would yield. -/
def FifoReceiver.peek : FifoReceiver → Option EnrichedEvent
  | .fifoDropOldest q => q.buf.head?
  | .isolated chan => chan.head?

/-- The receiver after yielding its front item. -/
def FifoReceiver.pop : FifoReceiver → FifoReceiver
  | .fifoDropOldest q => .fifoDropOldest { q with buf := q.buf.tail }
  | .isolated chan => .isolated chan.tail

lemma FifoReceiver.try_recv_eq (r : FifoReceiver) : r.try_recv = (r.peek, r.pop) := by
  cases r with
  | fifoDropOldest q =>
      obtain ⟨buf, cap⟩ := q
      cases buf <;>
        simp [FifoReceiver.try_recv, FifoReceiver.peek, FifoReceiver.pop,
          FifoDropOldestQueue.try_recv]
  | isolated chan => cases chan <;> rfl

/-- `FifoInput`: event type plus receiver. -/
structure FifoInput where
  event_type : String
  receiver : FifoReceiver
deriving DecidableEq

/-- `WorkerInputs`: one subscriber's multiplexer state (the shared `Notify`
wake signal has no pure-state content; a poll round that finds nothing is
modelled as `none` = suspend on the signal). -/
structure WorkerInputs where
  latest : List Latest1Input
  fifos : List FifoInput
  fifo_index : Nat
deriving DecidableEq

/-- `SnapshotUpdate`. -/
structure SnapshotUpdate where
  event_type : String
  event : EnrichedEvent
deriving DecidableEq

/-- `WorkerBatch`. -/
inductive WorkerBatch where
  | snapshots (updates : List SnapshotUpdate)
  | fifoItem (event_type : String) (event : EnrichedEvent)
deriving DecidableEq

/-- The latest-slot drain loop at the top of `WorkerInputs::next`: `try_recv`
every latest-slot input, collecting the values present. -/
def drain_latest : List Latest1Input → List SnapshotUpdate × List Latest1Input
  | [] => ([], [])
  | l :: rest =>
      let r := l.queue.try_recv
      let d := drain_latest rest
      ((match r.1 with
        | some e => [⟨l.event_type, e⟩]
        | none => []) ++ d.1,
        { l with queue := r.2 } :: d.2)

/-- The FIFO scan loop of `WorkerInputs::next`: starting at index `i`, try
each input's receiver in turn, advancing the cursor by `(i + 1) % len` per
step, for at most `tries` steps (the code breaks after one full lap, i.e.
`tries = fifos.length`).  Returns the served index, its event type and item,
and the updated input list. -/
def scan_fifos (fifos : List FifoInput) : Nat → Nat →
    Option (Nat × String × EnrichedEvent × List FifoInput)
  | _, 0 => none
  | i, t + 1 =>
      match fifos[i]? with
      | none => none
      | some f =>
          match f.receiver.try_recv with
          | (some e, r') =>
              some (i, f.event_type, e, fifos.set i { f with receiver := r' })
          | (none, _) => scan_fifos fifos ((i + 1) % fifos.length) t

/-- One poll round of `WorkerInputs::next`: drain every latest-slot input and
return the batch if nonempty; otherwise scan the FIFO-class inputs one full
lap from the round-robin cursor; `none` means the round found nothing and the
code suspends on the wake signal before retrying. -/
def WorkerInputs.next_poll (w : WorkerInputs) : Option (WorkerBatch × WorkerInputs) :=
  let d := drain_latest w.latest
  if d.1.isEmpty then
    if w.fifos.isEmpty then none
    else
      match scan_fifos w.fifos w.fifo_index w.fifos.length with
      | some (j, ty, e, fifos') =>
          some (WorkerBatch.fifoItem ty e,
            { w with latest := d.2, fifos := fifos', fifo_index := (j + 1) % w.fifos.length })
      | none => none
  else
    some (WorkerBatch.snapshots d.1, { w with latest := d.2 })

/-- The FIFO-serving core of a poll round, also reporting the served input's
index (used to state fairness). -/
def WorkerInputs.poll_once (w : WorkerInputs) : Option (Nat × WorkerBatch × WorkerInputs) :=
  match scan_fifos w.fifos w.fifo_index w.fifos.length with
  | some (j, ty, e, fifos') =>
      some (j, WorkerBatch.fifoItem ty e,
        { w with fifos := fifos', fifo_index := (j + 1) % w.fifos.length })
  | none => none

/-- Indices of the inputs served by `n` successive successful poll rounds. -/
def serve_trace : WorkerInputs → Nat → List Nat
  | _, 0 => []
  | w, n + 1 =>
      match w.poll_once with
      | some (j, _, w') => j :: serve_trace w' n
      | none => []

/-- Whether the input at index `i` currently holds an available item. -/
def has_item_at (fifos : List FifoInput) (i : Nat) : Bool :=
  fifos[i]?.elim false (fun f => f.receiver.peek.isSome)

/-! ### Worker run loop (`core/src/workers/worker.rs`,
`core/src/workers/events/pipeline_failed.rs`) -/

/-- `PipelineFailed` (the `ts : SystemTime` field is omitted; `Uuid` is
`Nat`). -/
structure PipelineFailed where
  event_id : Nat
  parents : List Nat
  stage : String
  message : String
deriving DecidableEq

/-- `PipelineFailed::new`: note that the code sets `event_id` to the *parent*
event's id (`event.event_id()`), alongside recording the same id in
`parents`. -/
def PipelineFailed.new (event : Ev) (subscriber_id : String) (message : String) :
    PipelineFailed :=
  { event_id := event.event_id
    parents := [event.event_id]
    stage := subscriber_id
    message := message }

/-- One iteration of `Worker::run` on a delivered batch.  The handler's
outcome is abstracted as `Except String Unit` (its own publishes go through
the bus and are not the run-loop's concern); the returned list is the
`PipelineFailed` events the run-loop itself publishes.  The `Snapshots` arm
is `todo!()` — a panic, modelled as `Except.error`. -/
def run_step (handler : EnrichedEvent → Except String Unit) (subscriber_id : String) :
    WorkerBatch → Except String (List PipelineFailed)
  | .snapshots _ => .error "not yet implemented"
  | .fifoItem _ e =>
      match handler e with
      | .ok _ => .ok []
      | .error msg => .ok [PipelineFailed.new e.event subscriber_id msg]

/-- The run loop over a sequence of delivered batches: processes every batch
in turn, accumulating the published failure events, and aborts only if an
iteration panics. -/
def run_batches (handler : EnrichedEvent → Except String Unit) (subscriber_id : String) :
    List WorkerBatch → Except String (List PipelineFailed)
  | [] => .ok []
  | b :: rest =>
      match run_step handler subscriber_id b with
      | .error m => .error m
      | .ok out =>
          match run_batches handler subscriber_id rest with
          | .error m => .error m
          | .ok outs => .ok (out ++ outs)

/-- C3: a FIFO-class item whose handler errors causes the run-loop to publish
exactly one `PipelineFailed` — parent-ids exactly the triggering event's id,
stage the worker's subscriber identity — and the loop never terminates on a
handling error: any sequence of FIFO-class batches is processed to
completion. -/
theorem c3_handler_error_publishes_one_pipeline_failed
    (handler : EnrichedEvent → Except String Unit) (subscriber_id : String)
    (ty : String) (e : EnrichedEvent) (m : String) (batches : List WorkerBatch)
    (herr : handler e = .error m)
    (hfifo : ∀ b ∈ batches, ∃ ty' e', b = WorkerBatch.fifoItem ty' e') :
    run_step handler subscriber_id (WorkerBatch.fifoItem ty e) =
      .ok [PipelineFailed.new e.event subscriber_id m] ∧
    (PipelineFailed.new e.event subscriber_id m).parents = [e.event.event_id] ∧
    (PipelineFailed.new e.event subscriber_id m).stage = subscriber_id ∧
    ∃ outs, run_batches handler subscriber_id batches = .ok outs := by
  refine ⟨by simp [run_step, herr], rfl, rfl, ?_⟩
  induction batches with
  | nil => exact ⟨[], rfl⟩
  | cons b rest ih =>
      obtain ⟨ty', e', rfl⟩ := hfifo b (List.mem_cons_self b rest)
      obtain ⟨outs, houts⟩ := ih fun b hb => hfifo b (List.mem_cons_of_mem _ hb)
      cases hh : handler e' with
      | ok u => exact ⟨outs, by simp [run_batches, run_step, hh, houts]⟩
      | error msg =>
          exact ⟨PipelineFailed.new e'.event subscriber_id msg :: outs,
            by simp [run_batches, run_step, hh, houts]⟩

/-- Witness for C3: a handler that always fails, one triggering item, and a
second item showing the loop continues. -/
theorem c3_witness :
    run_step (fun _ => Except.error "boom") "stage"
        (WorkerBatch.fifoItem "t" ⟨⟨7, [], "t"⟩, 0, 0⟩) =
      .ok [PipelineFailed.new ⟨7, [], "t"⟩ "stage" "boom"] ∧
    (PipelineFailed.new ⟨7, [], "t"⟩ "stage" "boom").parents = [7] ∧
    (PipelineFailed.new ⟨7, [], "t"⟩ "stage" "boom").stage = "stage" ∧
    ∃ outs, run_batches (fun _ => Except.error "boom") "stage"
        [WorkerBatch.fifoItem "t" ⟨⟨8, [], "t"⟩, 1, 0⟩] = .ok outs :=
  c3_handler_error_publishes_one_pipeline_failed (fun _ => Except.error "boom") "stage"
    "t" ⟨⟨7, [], "t"⟩, 0, 0⟩ "boom" [WorkerBatch.fifoItem "t" ⟨⟨8, [], "t"⟩, 1, 0⟩]
    rfl (by
      intro b hb
      rw [List.mem_singleton] at hb
      exact ⟨"t", ⟨⟨8, [], "t"⟩, 1, 0⟩, hb⟩)

/-- C6 evaluation of the code: `PipelineFailed::new` gives the failure event
the *same* id as its parent (it copies `event.event_id()` into `event_id`),
so the constructed event's id is never distinct from its parent's — contrary
to the globally-unique-id invariant (every other event variant mints a fresh
`Uuid::new_v4()`). -/
theorem c6_pipeline_failed_id_equals_parent (ev : Ev) (subscriber_id message : String) :
    (PipelineFailed.new ev subscriber_id message).event_id = ev.event_id ∧
    (PipelineFailed.new ev subscriber_id message).parents = [ev.event_id] :=
  ⟨rfl, rfl⟩

lemma drain_latest_ne_nil (ls : List Latest1Input)
    (h : ∃ l ∈ ls, l.queue.slot.isSome) : (drain_latest ls).1 ≠ [] := by
  induction ls with
  | nil => simp at h
  | cons l rest ih =>
      obtain ⟨l', hl', hsome⟩ := h
      rcases List.mem_cons.mp hl' with rfl | hrest
      · obtain ⟨e, he⟩ := Option.isSome_iff_exists.mp hsome
        simp [drain_latest, Latest1Queue.try_recv, he]
      · have := ih ⟨l', hrest, hsome⟩
        cases hq : l.queue.slot <;>
          simp [drain_latest, Latest1Queue.try_recv, hq, this]

/-- C9: if any latest-slot input of a worker's multiplexer holds a pending
value, the next poll round returns a nonempty `Snapshots` batch, and the
generic run-loop's handling of that batch is the unconditional `todo!()` —
a panic, for every handler and subscriber identity. -/
theorem c9_pending_latest_slot_panics_run_loop (w : WorkerInputs)
    (h : ∃ l ∈ w.latest, l.queue.slot.isSome) :
    ∃ (snaps : List SnapshotUpdate) (w' : WorkerInputs),
      w.next_poll = some (WorkerBatch.snapshots snaps, w') ∧ snaps ≠ [] ∧
      ∀ (handler : EnrichedEvent → Except String Unit) (subscriber_id : String),
        run_step handler subscriber_id (WorkerBatch.snapshots snaps) =
          Except.error "not yet implemented" := by
  have hne := drain_latest_ne_nil w.latest h
  refine ⟨(drain_latest w.latest).1, { w with latest := (drain_latest w.latest).2 },
    ?_, hne, fun handler subscriber_id => rfl⟩
  unfold WorkerInputs.next_poll
  rw [if_neg (by simpa [List.isEmpty_iff] using hne)]

/-- Witness for C9: one latest-slot input holding a pending value. -/
theorem c9_witness :
    ∃ (snaps : List SnapshotUpdate) (w' : WorkerInputs),
      (⟨[⟨"t", ⟨some ⟨⟨7, [], "t"⟩, 0, 0⟩⟩⟩], [], 0⟩ : WorkerInputs).next_poll =
        some (WorkerBatch.snapshots snaps, w') ∧ snaps ≠ [] ∧
      ∀ (handler : EnrichedEvent → Except String Unit) (subscriber_id : String),
        run_step handler subscriber_id (WorkerBatch.snapshots snaps) =
          Except.error "not yet implemented" :=
  c9_pending_latest_slot_panics_run_loop ⟨[⟨"t", ⟨some ⟨⟨7, [], "t"⟩, 0, 0⟩⟩⟩], [], 0⟩
    ⟨⟨"t", ⟨some ⟨⟨7, [], "t"⟩, 0, 0⟩⟩⟩, List.mem_singleton.mpr rfl, rfl⟩

/-! ### Round-robin scan analysis for C4 -/

/-- The index the FIFO scan would serve: the same cursor walk as
`scan_fifos`, without performing the pop. -/
def first_hit (fifos : List FifoInput) : Nat → Nat → Option Nat
  | _, 0 => none
  | i, t + 1 =>
      match fifos[i]? with
      | none => none
      | some f =>
          if f.receiver.peek.isSome then some i
          else first_hit fifos ((i + 1) % fifos.length) t

lemma scan_none_iff_first_hit_none (fifos : List FifoInput) (t : Nat) :
    ∀ i, (scan_fifos fifos i t = none ↔ first_hit fifos i t = none) := by
  induction t with
  | zero => intro i; simp [scan_fifos, first_hit]
  | succ t ih =>
      intro i
      cases hg : fifos[i]? with
      | none => simp [scan_fifos, first_hit, hg]
      | some f =>
          cases hp : f.receiver.peek with
          | some e =>
              simp [scan_fifos, first_hit, hg, FifoReceiver.try_recv_eq, hp]
          | none =>
              simpa [scan_fifos, first_hit, hg, FifoReceiver.try_recv_eq, hp] using ih _

lemma scan_some_spec (fifos : List FifoInput) (t : Nat) :
    ∀ i j ty e fifos', scan_fifos fifos i t = some (j, ty, e, fifos') →
      first_hit fifos i t = some j ∧
      ∃ f, fifos[j]? = some f ∧ ty = f.event_type ∧ f.receiver.peek = some e ∧
        fifos' = fifos.set j { f with receiver := f.receiver.pop } := by
  induction t with
  | zero => intro i j ty e fifos' h; simp [scan_fifos] at h
  | succ t ih =>
      intro i j ty e fifos' h
      cases hg : fifos[i]? with
      | none => simp [scan_fifos, hg] at h
      | some f =>
          cases hp : f.receiver.peek with
          | some e0 =>
              simp only [scan_fifos, hg, FifoReceiver.try_recv_eq, hp, Option.some.injEq,
                Prod.mk.injEq] at h
              obtain ⟨rfl, rfl, rfl, rfl⟩ := h
              exact ⟨by simp [first_hit, hg, hp], f, hg, rfl, hp, rfl⟩
          | none =>
              simp only [scan_fifos, hg, FifoReceiver.try_recv_eq, hp] at h
              obtain ⟨hfh, hrest⟩ := ih _ j ty e fifos' h
              exact ⟨by simp [first_hit, hg, hp, hfh], hrest⟩

lemma mod_shift (i s k : Nat) : ((i + 1) % k + s) % k = (i + (s + 1)) % k := by
  calc ((i + 1) % k + s) % k
      = (i + 1 + s) % k := Nat.ModEq.add_right s (Nat.mod_modEq _ _)
    _ = (i + (s + 1)) % k := by congr 1; omega

lemma first_hit_some_spec (fifos : List FifoInput) (t : Nat) :
    ∀ i j, i < fifos.length → first_hit fifos i t = some j →
      ∃ s, s < t ∧ j = (i + s) % fifos.length ∧ has_item_at fifos j = true ∧
        ∀ s' < s, has_item_at fifos ((i + s') % fifos.length) = false := by
  induction t with
  | zero => intro i j _ h; simp [first_hit] at h
  | succ t ih =>
      intro i j hi h
      have hk0 : 0 < fifos.length := Nat.lt_of_le_of_lt (Nat.zero_le i) hi
      have hg : fifos[i]? = some fifos[i] := List.getElem?_eq_getElem hi
      by_cases hp : fifos[i].receiver.peek.isSome
      · simp only [first_hit, hg, hp, if_true, Option.some.injEq] at h
        subst h
        refine ⟨0, Nat.succ_pos t, by rw [Nat.add_zero, Nat.mod_eq_of_lt hi], ?_, by omega⟩
        simp [has_item_at, hg, hp]
      · simp only [first_hit, hg, hp, if_false, Bool.false_eq_true] at h
        obtain ⟨s, hst, hjs, hjitem, hbefore⟩ :=
          ih ((i + 1) % fifos.length) j (Nat.mod_lt _ hk0) h
        refine ⟨s + 1, by omega, by rw [← mod_shift, hjs], hjitem, ?_⟩
        intro s' hs'
        cases s' with
        | zero =>
            rw [Nat.add_zero, Nat.mod_eq_of_lt hi]
            simp [has_item_at, hg, hp]
        | succ s'' =>
            rw [← mod_shift]
            exact hbefore s'' (by omega)

lemma first_hit_isSome_of_item (fifos : List FifoInput) (t : Nat) :
    ∀ i, i < fifos.length →
      (∃ s, s < t ∧ has_item_at fifos ((i + s) % fifos.length) = true) →
      (first_hit fifos i t).isSome := by
  induction t with
  | zero =>
      intro i _ h
      obtain ⟨s, hs, _⟩ := h
      omega
  | succ t ih =>
      intro i hi h
      obtain ⟨s, hst, hitem⟩ := h
      have hk0 : 0 < fifos.length := Nat.lt_of_le_of_lt (Nat.zero_le i) hi
      have hg : fifos[i]? = some fifos[i] := List.getElem?_eq_getElem hi
      by_cases hp : fifos[i].receiver.peek.isSome
      · simp [first_hit, hg, hp]
      · have hs0 : s ≠ 0 := by
          intro h0
          subst h0
          rw [Nat.add_zero, Nat.mod_eq_of_lt hi] at hitem
          simp [has_item_at, hg, hp] at hitem
        obtain ⟨s', rfl⟩ := Nat.exists_eq_succ_of_ne_zero hs0
        rw [← mod_shift] at hitem
        have := ih ((i + 1) % fifos.length) (Nat.mod_lt _ hk0) ⟨s', by omega, hitem⟩
        simpa [first_hit, hg, hp] using this

lemma serve_trace_mono : ∀ (n m : Nat) (w : WorkerInputs) (x : Nat), n ≤ m →
    x ∈ serve_trace w n → x ∈ serve_trace w m := by
  intro n
  induction n with
  | zero =>
      intro m w x _ h
      simp [serve_trace] at h
  | succ n ih =>
      intro m w x hnm h
      obtain ⟨m', rfl⟩ : ∃ m', m = m' + 1 := ⟨m - 1, by omega⟩
      cases hp : w.poll_once with
      | none => simp [serve_trace, hp] at h
      | some v =>
          obtain ⟨j, b, w'⟩ := v
          simp only [serve_trace, hp] at h ⊢
          rcases List.mem_cons.mp h with rfl | h
          · exact List.mem_cons_self _ _
          · exact List.mem_cons_of_mem _ (ih m' w' x (by omega) h)

/-- Fairness core: if input `i` holds an item and sits `d` cursor steps
(mod the input count) ahead of the round-robin cursor, then `i` is served
within `d + 1` successive poll rounds. -/
lemma fair_aux : ∀ (d : Nat) (w : WorkerInputs) (i : Nat),
    w.fifo_index < w.fifos.length → i < w.fifos.length →
    has_item_at w.fifos i = true →
    (w.fifo_index + d) % w.fifos.length = i →
    i ∈ serve_trace w (d + 1) := by
  intro d
  induction d using Nat.strong_induction_on with
  | _ d ih =>
      intro w i hc hi hitem hd
      have hk0 : 0 < w.fifos.length := Nat.lt_of_le_of_lt (Nat.zero_le i) hi
      have hdk : (w.fifo_index + d % w.fifos.length) % w.fifos.length = i := by
        calc (w.fifo_index + d % w.fifos.length) % w.fifos.length
            = (w.fifo_index + d) % w.fifos.length :=
              Nat.ModEq.add_left w.fifo_index (Nat.mod_modEq d _)
          _ = i := hd
      have hfh : (first_hit w.fifos w.fifo_index w.fifos.length).isSome :=
        first_hit_isSome_of_item w.fifos w.fifos.length w.fifo_index hc
          ⟨d % w.fifos.length, Nat.mod_lt _ hk0, by rw [hdk]; exact hitem⟩
      have hscan : scan_fifos w.fifos w.fifo_index w.fifos.length ≠ none := by
        intro hnone
        rw [(scan_none_iff_first_hit_none w.fifos w.fifos.length w.fifo_index).mp hnone] at hfh
        simp at hfh
      obtain ⟨⟨j, ty, e, fifos'⟩, hscan'⟩ := Option.ne_none_iff_exists'.mp hscan
      obtain ⟨hfh', f, hgf, hty, hpe, hfifos'⟩ :=
        scan_some_spec w.fifos w.fifos.length w.fifo_index j ty e fifos' hscan'
      obtain ⟨s, hst, hjs, hjitem, hbefore⟩ :=
        first_hit_some_spec w.fifos w.fifos.length w.fifo_index j hc hfh'
      have hpoll : w.poll_once = some (j, WorkerBatch.fifoItem ty e,
          { w with fifos := fifos', fifo_index := (j + 1) % w.fifos.length }) := by
        simp [WorkerInputs.poll_once, hscan']
      by_cases hji : j = i
      · subst hji
        simp only [serve_trace, hpoll]
        exact List.mem_cons_self _ _
      · -- the served index lies strictly before `i` in cyclic order
        have hsdk : s < d % w.fifos.length := by
          rcases Nat.lt_trichotomy s (d % w.fifos.length) with h | h | h
          · exact h
          · exact absurd (by rw [hjs, h, hdk]) hji
          · exfalso
            have hb := hbefore (d % w.fifos.length) h
            rw [hdk, hitem] at hb
            cases hb
        obtain ⟨d', hd'⟩ : ∃ d', d % w.fifos.length = s + 1 + d' :=
          ⟨d % w.fifos.length - s - 1, by omega⟩
        have hd'd : d' < d := by
          have := Nat.mod_le d w.fifos.length
          omega
        have hlen' : fifos'.length = w.fifos.length := by
          rw [hfifos']
          exact List.length_set w.fifos j _
        have hitem' : has_item_at fifos' i = true := by
          rw [hfifos', has_item_at, List.getElem?_set_ne hji]
          exact hitem
        have hnext : ((j + 1) % w.fifos.length + d') % w.fifos.length = i := by
          calc ((j + 1) % w.fifos.length + d') % w.fifos.length
              = (j + (d' + 1)) % w.fifos.length := mod_shift j d' _
            _ = ((w.fifo_index + s) % w.fifos.length + (d' + 1)) % w.fifos.length := by
                rw [hjs]
            _ = (w.fifo_index + s + (d' + 1)) % w.fifos.length :=
                Nat.ModEq.add_right _ (Nat.mod_modEq _ _)
            _ = (w.fifo_index + d % w.fifos.length) % w.fifos.length := by
                congr 1
                omega
            _ = i := hdk
        have ih' := ih d' hd'd
          { w with fifos := fifos', fifo_index := (j + 1) % w.fifos.length } i
          (by simpa [hlen'] using Nat.mod_lt (j + 1) hk0)
          (by simpa [hlen'] using hi)
          hitem'
          (by simpa [hlen'] using hnext)
        simp only [serve_trace, hpoll]
        exact List.mem_cons_of_mem _
          (serve_trace_mono (d' + 1) d _ i (by omega) ih')

/-- C4: with the latest-slot inputs empty (all inputs FIFO-class), (a) the
embedded `next()` poll round coincides with the index-reporting `poll_once`;
(b) a `FifoItem` return comes from the first input in cyclic cursor order
holding an available item — that input's head item is returned and popped
(so an item can never be returned twice) and the cursor is left just past the
served input; (c) any input holding an item is served within
`w.fifos.length` consecutive poll rounds. -/
theorem c4_multiplexer_round_robin_fairness (w : WorkerInputs)
    (hl : w.latest = []) (hc : w.fifo_index < w.fifos.length) :
    (w.next_poll = w.poll_once.map (fun x => (x.2.1, x.2.2))) ∧
    (∀ (ty : String) (e : EnrichedEvent) (w' : WorkerInputs),
      w.next_poll = some (WorkerBatch.fifoItem ty e, w') →
      ∃ (s j : Nat) (f : FifoInput),
        s < w.fifos.length ∧
        j = (w.fifo_index + s) % w.fifos.length ∧
        (∀ s' < s, has_item_at w.fifos ((w.fifo_index + s') % w.fifos.length) = false) ∧
        w.fifos[j]? = some f ∧ ty = f.event_type ∧ f.receiver.peek = some e ∧
        w'.fifos = w.fifos.set j { f with receiver := f.receiver.pop } ∧
        w'.fifo_index = (j + 1) % w.fifos.length) ∧
    (∀ i, i < w.fifos.length → has_item_at w.fifos i = true →
      i ∈ serve_trace w w.fifos.length) := by
  obtain ⟨lat, fifos, idx⟩ := w
  simp only [WorkerInputs.latest] at hl
  subst hl
  simp only [WorkerInputs.fifos, WorkerInputs.fifo_index] at hc
  refine ⟨?_, ?_, ?_⟩
  · -- (a) with no latest-slot inputs, next_poll is poll_once minus the index
    cases fifos with
    | nil => rfl
    | cons f0 rest =>
        cases hscan : scan_fifos (f0 :: rest) idx (f0 :: rest).length with
        | none =>
            simp only [List.length_cons] at hscan
            simp [WorkerInputs.next_poll, WorkerInputs.poll_once, drain_latest, hscan]
        | some v =>
            obtain ⟨j, ty, e, fifos'⟩ := v
            simp only [List.length_cons] at hscan
            simp [WorkerInputs.next_poll, WorkerInputs.poll_once, drain_latest, hscan]
  · -- (b) first-available-from-cursor, pop, cursor-just-past
    intro ty e w' h
    have hne : fifos ≠ [] := by
      intro h0
      subst h0
      simp [WorkerInputs.next_poll, drain_latest, scan_fifos] at h
    cases hscan : scan_fifos fifos idx fifos.length with
    | none =>
        rw [WorkerInputs.next_poll] at h
        simp [drain_latest, List.isEmpty_iff, hne, hscan] at h
    | some v =>
        obtain ⟨j0, ty0, e0, fifos0⟩ := v
        rw [WorkerInputs.next_poll] at h
        simp only [drain_latest, List.isEmpty_nil, if_true, List.isEmpty_iff, hscan] at h
        rw [if_neg hne] at h
        simp only [Option.some.injEq, Prod.mk.injEq, WorkerBatch.fifoItem.injEq] at h
        obtain ⟨⟨rfl, rfl⟩, rfl⟩ := h
        obtain ⟨hfh', f, hgf, hty, hpe, hfifos'⟩ :=
          scan_some_spec fifos fifos.length idx j0 ty0 e0 fifos0 hscan
        obtain ⟨s, hst, hjs, _, hbefore⟩ :=
          first_hit_some_spec fifos fifos.length idx j0 hc hfh'
        exact ⟨s, j0, f, hst, hjs, hbefore, hgf, hty, hpe, hfifos', rfl⟩
  · -- (c) fairness: served within one full lap
    intro i hi hitem
    have hi' : i < fifos.length := hi
    have hitem' : has_item_at fifos i = true := hitem
    by_cases hci : idx ≤ i
    · have hd : (idx + (i - idx)) % fifos.length = i := by
        rw [Nat.add_sub_cancel' hci, Nat.mod_eq_of_lt hi']
      exact serve_trace_mono (i - idx + 1) fifos.length ⟨[], fifos, idx⟩ i (by omega)
        (fair_aux (i - idx) ⟨[], fifos, idx⟩ i hc hi' hitem' hd)
    · have hd : (idx + (i + fifos.length - idx)) % fifos.length = i := by
        have h1 : idx + (i + fifos.length - idx) = i + fifos.length := by omega
        rw [h1, Nat.add_mod_right, Nat.mod_eq_of_lt hi']
      exact serve_trace_mono (i + fifos.length - idx + 1) fifos.length ⟨[], fifos, idx⟩ i
        (by omega)
        (fair_aux (i + fifos.length - idx) ⟨[], fifos, idx⟩ i hc hi' hitem' hd)

/-- Concrete multiplexer state for the C4 witness: two FIFO-class inputs, the
second holding one pending item, cursor at 0. -/
def c4w : WorkerInputs :=
  ⟨[], [⟨"a", FifoReceiver.isolated []⟩,
        ⟨"b", FifoReceiver.isolated [⟨⟨1, [], "b"⟩, 0, 0⟩]⟩], 0⟩

/-- Witness for C4 at `c4w`. -/
theorem c4_witness :
    c4w.latest = [] ∧ c4w.fifo_index < c4w.fifos.length ∧
    ((c4w.next_poll = c4w.poll_once.map (fun x => (x.2.1, x.2.2))) ∧
    (∀ (ty : String) (e : EnrichedEvent) (w' : WorkerInputs),
      c4w.next_poll = some (WorkerBatch.fifoItem ty e, w') →
      ∃ (s j : Nat) (f : FifoInput),
        s < c4w.fifos.length ∧
        j = (c4w.fifo_index + s) % c4w.fifos.length ∧
        (∀ s' < s, has_item_at c4w.fifos ((c4w.fifo_index + s') % c4w.fifos.length) = false) ∧
        c4w.fifos[j]? = some f ∧ ty = f.event_type ∧ f.receiver.peek = some e ∧
        w'.fifos = c4w.fifos.set j { f with receiver := f.receiver.pop } ∧
        w'.fifo_index = (j + 1) % c4w.fifos.length) ∧
    (∀ i, i < c4w.fifos.length → has_item_at c4w.fifos i = true →
      i ∈ serve_trace c4w c4w.fifos.length)) :=
  ⟨rfl, by decide, c4_multiplexer_round_robin_fairness c4w rfl (by decide)⟩

end Bratishka
